import Mathlib

/-!
Verification of the chain-backed playlist persistence core of the IPTV web
client.  The definitions below are a shallow embedding of
`src/web/src/lib/chain.ts` and `src/web/src/lib/url-sanitizer.ts` (the URL
sanitizer module).  JavaScript strings are modelled by Lean `String`
(sequences of Unicode scalar values), byte buffers by `List Nat` (each entry
a byte value), and fallible operations by `Option`/`Except`.  Browser/runtime
primitives that are not part of the repository (the WHATWG `URL` parser,
`encodeURIComponent`/`decodeURIComponent`, UTF-8 text encoding, the gzip
codec, blake2b hashing, the network) are modelled explicitly where their
behaviour is observable, or passed in as environment parameters where only
their interface matters.
-/

namespace IPTV

/-! ## Basic ASCII character helpers -/

def isAsciiUpper (c : Char) : Bool := decide (65 ≤ c.toNat ∧ c.toNat ≤ 90)

def isAsciiLower (c : Char) : Bool := decide (97 ≤ c.toNat ∧ c.toNat ≤ 122)

def isAsciiAlpha (c : Char) : Bool := isAsciiUpper c || isAsciiLower c

def isAsciiDigit (c : Char) : Bool := decide (48 ≤ c.toNat ∧ c.toNat ≤ 57)

/-- JS regex character class `[a-zA-Z0-9]`. -/
def isAsciiAlphaNum (c : Char) : Bool := isAsciiAlpha c || isAsciiDigit c

/-- ASCII lower-casing, as performed by the WHATWG URL parser on schemes. -/
def lowerChar (c : Char) : Char :=
  if isAsciiUpper c then Char.ofNat (c.toNat + 32) else c

/-- First index of a character in a character list (JS `indexOf` for one char). -/
def firstIndexOfChar (c : Char) : List Char → Option Nat
  | [] => none
  | x :: xs => if x = c then some 0 else (firstIndexOfChar c xs).map (· + 1)

/-- Last index of a character in a character list (JS `lastIndexOf` for one char). -/
def lastIndexOfChar (c : Char) : List Char → Option Nat
  | [] => none
  | x :: xs =>
    match lastIndexOfChar c xs with
    | some i => some (i + 1)
    | none => if x = c then some 0 else none

/-! ## Model of the WHATWG `URL` constructor, restricted to what
`sanitizeUrl` observes: whether `new URL(s)` succeeds, and the resulting
`protocol` string.  The model implements scheme extraction (with ASCII
lower-casing and leading/trailing C0-control/space stripping and removal of
embedded tabs/newlines) and, for special schemes, authority/host/port
validation.  Host validation approximates the standard (it accepts the same
scheme outcomes on the inputs the sanitizer distinguishes). -/

/-- The URL constructor strips leading and trailing C0 controls and spaces. -/
def urlTrimEnds (cs : List Char) : List Char :=
  ((cs.dropWhile (fun c => decide (c.toNat ≤ 32))).reverse.dropWhile
    (fun c => decide (c.toNat ≤ 32))).reverse

/-- The URL constructor removes all ASCII tabs and newlines from the input. -/
def stripTabsNewlines (cs : List Char) : List Char :=
  cs.filter (fun c => decide (c.toNat ≠ 9 ∧ c.toNat ≠ 10 ∧ c.toNat ≠ 13))

/-- Characters allowed in a URL scheme after the first (ASCII alpha) one. -/
def isSchemeChar (c : Char) : Bool :=
  isAsciiAlphaNum c || c = '+' || c = '-' || c = '.'

def takeSchemeGo (acc : List Char) : List Char → Option (List Char × List Char)
  | [] => none
  | c :: rest =>
    if c = ':' then some (acc.reverse, rest)
    else if isSchemeChar c then takeSchemeGo (c :: acc) rest
    else none

/-- Split `cs` into a scheme (before the first `:`) and the remainder.
Fails when the input does not start with `alpha (alphanum | + | - | .)* :`,
in which case `new URL` throws (no valid absolute-URL scheme). -/
def takeScheme : List Char → Option (List Char × List Char)
  | [] => none
  | c :: rest => if isAsciiAlpha c then takeSchemeGo [c] rest else none

/-- Forbidden host/domain code points per the URL standard. -/
def isForbiddenHostChar (c : Char) : Bool :=
  decide (c.toNat ≤ 32 ∨ c.toNat = 127 ∨
    c.toNat ∈ [34, 35, 37, 47, 58, 60, 62, 63, 64, 91, 92, 93, 94, 124])

/-- Characters allowed inside an IPv6 host literal `[...]` (approximation). -/
def isIpv6Char (c : Char) : Bool :=
  isAsciiDigit c ||
    decide ((97 ≤ c.toNat ∧ c.toNat ≤ 102) ∨ (65 ≤ c.toNat ∧ c.toNat ≤ 70) ∨
      c.toNat = 58 ∨ c.toNat = 46)

def portValue (cs : List Char) : Nat :=
  cs.foldl (fun a c => a * 10 + (c.toNat - 48)) 0

/-- A valid port string: all digits, value below 2^16 (empty port allowed). -/
def validPort (cs : List Char) : Bool :=
  cs.all isAsciiDigit && decide (portValue cs < 65536)

/-- Validity of the `host[:port]` part of a special-scheme authority. -/
def validHostPort (cs : List Char) : Bool :=
  match cs with
  | '[' :: rest =>
    match firstIndexOfChar ']' rest with
    | none => false
    | some j =>
      let inner := rest.take j
      let after := rest.drop (j + 1)
      !inner.isEmpty && inner.all isIpv6Char &&
        (after.isEmpty || (after.head? = some ':' && validPort after.tail))
  | _ =>
    match firstIndexOfChar ':' cs with
    | none => !cs.isEmpty && cs.all (fun c => !isForbiddenHostChar c)
    | some i =>
      let host := cs.take i
      let port := cs.drop (i + 1)
      !host.isEmpty && host.all (fun c => !isForbiddenHostChar c) && validPort port

/-- Schemes the URL standard treats as special and for which a nonempty
host is required (`file` is special too but allows an empty host). -/
def specialSchemesNoFile : List String := ["http", "https", "ws", "wss", "ftp"]

/-- Model of `new URL(s)`: `some p` when construction succeeds with
`protocol == p` (scheme lower-cased, with trailing colon), `none` when the
constructor throws. -/
def urlProtocol (s : String) : Option String :=
  match takeScheme (stripTabsNewlines (urlTrimEnds s.data)) with
  | none => none
  | some (schemeRaw, rest) =>
    let scheme : String := ⟨schemeRaw.map lowerChar⟩
    if scheme = "file" then some (scheme ++ ":")
    else if specialSchemesNoFile.contains scheme then
      let afterSlashes := rest.dropWhile (fun c => decide (c = '/' ∨ c = '\\'))
      let authority :=
        afterSlashes.takeWhile (fun c => decide (¬(c = '/' ∨ c = '?' ∨ c = '#' ∨ c = '\\')))
      let hostPort :=
        match lastIndexOfChar '@' authority with
        | some i => authority.drop (i + 1)
        | none => authority
      if validHostPort hostPort then some (scheme ++ ":") else none
    else some (scheme ++ ":")

/-! ## URL sanitizer (`src/web/src/lib/url-sanitizer.ts`) -/

def ALLOWED_PROTOCOLS : List String := ["http:", "https:"]

/-- `sanitizeUrl(url)`: returns the original string if `new URL(url)`
succeeds with an http/https protocol, `null` otherwise (including for
`null`/`undefined`/empty inputs, modelled as `none`/`some ""`).  The JS
function never throws; the `try/catch` around `new URL` is modelled by
`urlProtocol` returning `none`. -/
def sanitizeUrl (url : Option String) : Option String :=
  match url with
  | none => none
  | some u =>
    if u = "" then none
    else
      match urlProtocol u with
      | some p => if p ∈ ALLOWED_PROTOCOLS then some u else none
      | none => none

/-- `sanitizeStreamUrl(url)`: same as `sanitizeUrl` on a non-null string. -/
def sanitizeStreamUrl (url : String) : Option String := sanitizeUrl (some url)

theorem sanitizeUrl_some_iff (s : String) :
    sanitizeUrl (some s) = some s ↔
      (urlProtocol s = some "http:" ∨ urlProtocol s = some "https:") := by
  unfold sanitizeUrl
  by_cases hs : s = ""
  · subst hs
    have h0 : urlProtocol "" = none := rfl
    simp [h0]
  · simp only [if_neg hs]
    cases hp : urlProtocol s with
    | none => simp
    | some p =>
      by_cases hmem : p ∈ ALLOWED_PROTOCOLS
      · have hp' : p = "http:" ∨ p = "https:" := by
          simpa [ALLOWED_PROTOCOLS] using hmem
        rcases hp' with h | h <;> subst h <;> simp [hmem]
      · have hne : ¬(p = "http:" ∨ p = "https:") := by
          intro h
          exact hmem (by rcases h with h | h <;> subst h <;> simp [ALLOWED_PROTOCOLS])
        simp only [if_neg hmem]
        constructor
        · intro h; cases h
        · intro h
          exfalso
          exact hne (by rcases h with h | h
                        · exact Or.inl (Option.some.inj h)
                        · exact Or.inr (Option.some.inj h))

/-- Every result of `sanitizeUrl` is either the unchanged input or `none`. -/
theorem sanitizeUrl_unchanged_or_none (u : Option String) :
    sanitizeUrl u = u ∨ sanitizeUrl u = none := by
  cases u with
  | none => exact Or.inr rfl
  | some s =>
    unfold sanitizeUrl
    by_cases hs : s = ""
    · simp [hs]
    · simp only [if_neg hs]
      cases urlProtocol s with
      | none => simp
      | some p =>
        by_cases hmem : p ∈ ALLOWED_PROTOCOLS <;> simp [hmem]

/-- C3: for every string input, `sanitizeUrl` returns the input unchanged
iff it parses as an absolute URL whose scheme is http or https; every other
input (`none`, the empty string, unparsable strings, other schemes) yields
`none`; the function is total (never throws); and `sanitizeStreamUrl`
behaves identically to `sanitizeUrl`. -/
theorem sanitizeUrl_whitelist_spec :
    (∀ s : String, sanitizeUrl (some s) = some s ↔
      (urlProtocol s = some "http:" ∨ urlProtocol s = some "https:")) ∧
    (∀ s : String, ¬(urlProtocol s = some "http:" ∨ urlProtocol s = some "https:") →
      sanitizeUrl (some s) = none) ∧
    sanitizeUrl none = none ∧
    (∀ s : String, sanitizeStreamUrl s = sanitizeUrl (some s)) := by
  refine ⟨fun s => sanitizeUrl_some_iff s, fun s h => ?_, rfl, fun s => rfl⟩
  rcases sanitizeUrl_unchanged_or_none (some s) with h' | h'
  · exact absurd ((sanitizeUrl_some_iff s).mp h') h
  · exact h'

/-- Witness for C3 at concrete inputs: an https URL with auth, port, path,
query and fragment is kept; script-injection and data-URI schemes, empty and
unparsable inputs are rejected. -/
theorem sanitizeUrl_whitelist_spec_witness :
    sanitizeUrl (some "https://u:pw@h:8080/p?q#f") = some "https://u:pw@h:8080/p?q#f" ∧
    sanitizeUrl (some "javascript:alert(1)") = none ∧
    sanitizeUrl (some "DATA:text/html,x") = none ∧
    sanitizeUrl (some "vbscript:x") = none ∧
    sanitizeUrl (some "file:///etc/passwd") = none ∧
    sanitizeUrl (some "blob:y") = none ∧
    sanitizeUrl (some "not a url") = none ∧
    sanitizeUrl (some "") = none ∧
    sanitizeUrl none = none := by
  refine ⟨(sanitizeUrl_whitelist_spec.1 "https://u:pw@h:8080/p?q#f").mpr (Or.inr (by decide)),
    sanitizeUrl_whitelist_spec.2.1 "javascript:alert(1)" (by decide),
    sanitizeUrl_whitelist_spec.2.1 "DATA:text/html,x" (by decide),
    sanitizeUrl_whitelist_spec.2.1 "vbscript:x" (by decide),
    sanitizeUrl_whitelist_spec.2.1 "file:///etc/passwd" (by decide),
    sanitizeUrl_whitelist_spec.2.1 "blob:y" (by decide),
    sanitizeUrl_whitelist_spec.2.1 "not a url" (by decide),
    sanitizeUrl_whitelist_spec.2.1 "" (by decide),
    sanitizeUrl_whitelist_spec.2.2.1⟩

/-! ## Channel data model (`src/web/src/lib/types.ts`) and the playlist
codec (`compactifyChannels`, `expandChannels`, `parseM3U` in
`src/web/src/lib/chain.ts`).  The 8-byte blake2b hash used for channel ids
(`simpleHash`) lives in an external library, so it is passed in as a
function parameter; no claim depends on its value. -/

structure Channel where
  id : String
  name : String
  group : String
  logo_url : Option String
  stream_url : String
  is_live : Bool
deriving DecidableEq, Repr

structure CompactChannel where
  n : String
  g : String
  l : Option String
  s : String
deriving DecidableEq, Repr

def compactifyChannels (channels : List Channel) : List CompactChannel :=
  channels.map (fun ch => ⟨ch.name, ch.group, ch.logo_url, ch.stream_url⟩)

def expandChannels (simpleHash : String → String) (compact : List CompactChannel) :
    List Channel :=
  compact.flatMap (fun c =>
    match sanitizeStreamUrl c.s with
    | none => []
    | some sanitized =>
      [⟨simpleHash sanitized, c.n, c.g, sanitizeUrl c.l, sanitized, false⟩])

/-- JS `String.prototype.trim` whitespace (the code points relevant here). -/
def isJsWhitespace (c : Char) : Bool :=
  decide (c.toNat ∈ [9, 10, 11, 12, 13, 32, 160, 0xFEFF, 0x2028, 0x2029])

def jsTrim (s : String) : String :=
  ⟨((s.data.dropWhile isJsWhitespace).reverse.dropWhile isJsWhitespace).reverse⟩

def splitOnChar (sep : Char) : List Char → List (List Char)
  | [] => [[]]
  | c :: rest =>
    let r := splitOnChar sep rest
    if c = sep then [] :: r
    else
      match r with
      | [] => [[c]]
      | h :: t => (c :: h) :: t

def stripTrailingCR (cs : List Char) : List Char :=
  match cs.getLast? with
  | some c => if c.toNat = 13 then cs.dropLast else cs
  | none => cs

/-- JS `content.split(/\r?\n/)`: split on `\n`, dropping one carriage return
directly before each newline (a lone `\r` is not a separator). -/
def splitLinesJS (s : String) : List String :=
  (splitOnChar '\n' s.data).map (fun l => ⟨stripTrailingCR l⟩)

/-- Remainder of `cs` after the first occurrence of `pat` (JS `indexOf`
followed by a slice past the match). -/
def afterFirstOccur (pat : List Char) : List Char → Option (List Char)
  | [] => if pat.isEmpty then some [] else none
  | c :: rest =>
    if pat.isPrefixOf (c :: rest) then some ((c :: rest).drop pat.length)
    else afterFirstOccur pat rest

/-- JS `line.match(/attr="([^"]*)"/)` capture: the text between the first
`attr="` and the next double quote, provided that closing quote exists. -/
def matchQuotedAttr (attr : String) (line : String) : Option String :=
  match afterFirstOccur (attr.data ++ ['=', '"']) line.data with
  | none => none
  | some rest =>
    if rest.contains '"' then some ⟨rest.takeWhile (fun c => c ≠ '"')⟩ else none

structure PendingMeta where
  name : String
  group : String
  logo : Option String
deriving DecidableEq, Repr

/-- JS `String.prototype.startsWith` (kernel-computable model of
`String.startsWith`). -/
def jsStartsWith (s pre : String) : Bool := pre.data.isPrefixOf s.data

/-- The channel name on an `#EXTINF` line: the trimmed text after the last
comma (empty when the line holds no comma). -/
def extinfName (line : String) : String :=
  match lastIndexOfChar ',' line.data with
  | some i => jsTrim ⟨line.data.drop (i + 1)⟩
  | none => ""

/-- The channel object `parseM3U` pushes for an accepted URL line (`name`
falls back to the URL line itself when no `#EXTINF` name is pending,
mirroring JS `pendingName || line`). -/
def mkParsedChannel (simpleHash : String → String) (pending : PendingMeta)
    (line sanitized : String) : Channel :=
  ⟨simpleHash sanitized, if pending.name = "" then line else pending.name,
    pending.group, sanitizeUrl pending.logo, sanitized, false⟩

/-- One iteration of the `parseM3U` line loop, acting on the accumulated
channels and the pending `#EXTINF` metadata. -/
def parseM3UStep (simpleHash : String → String)
    (st : List Channel × PendingMeta) (raw : String) : List Channel × PendingMeta :=
  if jsTrim raw = "" ∨ jsTrim raw = "#EXTM3U" then st
  else if jsStartsWith (jsTrim raw) "#EXTINF:" then
    (st.1, ⟨extinfName (jsTrim raw), (matchQuotedAttr "group-title" (jsTrim raw)).getD "",
      matchQuotedAttr "tvg-logo" (jsTrim raw)⟩)
  else if jsStartsWith (jsTrim raw) "#" then st
  else
    match sanitizeStreamUrl (jsTrim raw) with
    | none => (st.1, ⟨"", "", none⟩)
    | some sanitized =>
      (st.1 ++ [mkParsedChannel simpleHash st.2 (jsTrim raw) sanitized], ⟨"", "", none⟩)

def parseM3U (simpleHash : String → String) (content : String) : List Channel :=
  ((splitLinesJS content).foldl (parseM3UStep simpleHash) ([], ⟨"", "", none⟩)).1

/-- A string accepted by `sanitizeUrl` comes back unchanged. -/
theorem sanitizeUrl_some_eq {u v : String} (h : sanitizeUrl (some u) = some v) :
    v = u := by
  rcases sanitizeUrl_unchanged_or_none (some u) with h' | h'
  · rw [h] at h'
    exact Option.some.inj h'
  · rw [h] at h'
    cases h'

theorem sanitizeStreamUrl_accepted {u v : String} (h : sanitizeStreamUrl u = some v) :
    sanitizeStreamUrl v = some v := by
  have hv : v = u := sanitizeUrl_some_eq h
  subst hv
  exact h

def channelTuple (ch : Channel) : String × String × Option String × String :=
  (ch.name, ch.group, ch.logo_url, ch.stream_url)

def badLogoChannel : Channel :=
  ⟨"i0", "News", "G", some "javascript:x", "http://a/", false⟩

/-- C4 counterexample: a channel list in which every `stream_url` is
sanitizer-valid but one channel carries a `logo_url` with a disallowed
scheme.  `expandChannels (compactifyChannels cs)` replaces that logo with
`none`, so the (name, group, logo_url, stream_url) tuples are not identical
to the originals, refuting the claim as stated. -/
theorem compactify_expand_not_tuple_preserving :
    sanitizeStreamUrl badLogoChannel.stream_url = some badLogoChannel.stream_url ∧
    (expandChannels (fun _ => "") (compactifyChannels [badLogoChannel])).map channelTuple ≠
      [badLogoChannel].map channelTuple := by
  decide

/-- C4 (amended): if additionally every channel's `logo_url` is accepted
unchanged by the sanitizer, then `expandChannels ∘ compactifyChannels`
rebuilds the list exactly, preserving (name, group, logo_url, stream_url)
in order, recomputing `id` from the stream URL and resetting `is_live` to
the decode-time default `false`. -/
theorem compactify_expand_roundtrip (simpleHash : String → String) (cs : List Channel)
    (hstream : ∀ ch ∈ cs, sanitizeStreamUrl ch.stream_url = some ch.stream_url)
    (hlogo : ∀ ch ∈ cs, sanitizeUrl ch.logo_url = ch.logo_url) :
    expandChannels simpleHash (compactifyChannels cs) =
      cs.map (fun ch =>
        ⟨simpleHash ch.stream_url, ch.name, ch.group, ch.logo_url, ch.stream_url, false⟩) := by
  induction cs with
  | nil => rfl
  | cons ch rest ih =>
    have h1 : sanitizeStreamUrl ch.stream_url = some ch.stream_url :=
      hstream ch (List.mem_cons_self ch rest)
    have h2 : sanitizeUrl ch.logo_url = ch.logo_url :=
      hlogo ch (List.mem_cons_self ch rest)
    have ih' := ih (fun c hc => hstream c (List.mem_cons_of_mem ch hc))
      (fun c hc => hlogo c (List.mem_cons_of_mem ch hc))
    simp only [compactifyChannels, expandChannels, List.map_cons, List.flatMap_cons, h1, h2,
      List.singleton_append]
    simp only [compactifyChannels, expandChannels] at ih'
    rw [ih']

/-- Witness for C4 at a concrete input. -/
theorem compactify_expand_roundtrip_witness :
    expandChannels (fun u => u ++ "!")
        (compactifyChannels [⟨"old", "N", "G", some "http://l/", "http://a/", true⟩]) =
      [⟨"http://a/!", "N", "G", some "http://l/", "http://a/", false⟩] :=
  compactify_expand_roundtrip (fun u => u ++ "!")
    [⟨"old", "N", "G", some "http://l/", "http://a/", true⟩]
    (by decide) (by decide)

theorem foldl_preserves {α σ : Type} (P : σ → Prop) (f : σ → α → σ)
    (hf : ∀ s a, P s → P (f s a)) :
    ∀ (l : List α) (s : σ), P s → P (l.foldl f s) := by
  intro l
  induction l with
  | nil => intro s hs; exact hs
  | cons a l ih => intro s hs; exact ih (f s a) (hf s a hs)

theorem parseM3UStep_preserves (simpleHash : String → String)
    (st : List Channel × PendingMeta) (raw : String)
    (hP : ∀ ch ∈ st.1, sanitizeStreamUrl ch.stream_url = some ch.stream_url) :
    ∀ ch ∈ (parseM3UStep simpleHash st raw).1,
      sanitizeStreamUrl ch.stream_url = some ch.stream_url := by
  unfold parseM3UStep
  split
  · exact hP
  · split
    · exact hP
    · split
      · exact hP
      · split
        · exact hP
        · next sanitized heq =>
          intro ch hch
          simp only [List.mem_append, List.mem_singleton] at hch
          rcases hch with hch | hch
          · exact hP ch hch
          · subst hch
            exact sanitizeStreamUrl_accepted heq

def m3uWithBadEntry : String :=
  "#EXTM3U\n#EXTINF:-1 group-title=\"G1\",One\nhttp://a/1\n#EXTINF:-1 group-title=\"BAD\",Evil\njavascript:alert(1)\n#EXTINF:-1,Two\nhttps://b/2\n"

/-- C9: every channel produced by `parseM3U` or `expandChannels` carries a
stream URL the sanitizer accepts unchanged; a record whose stream URL fails
sanitization contributes zero channels (in particular a single
`javascript:x` record expands to the empty list), and in `parseM3U` a bad
entry is dropped silently — its pending metadata discarded — while valid
sibling entries are preserved. -/
theorem channel_sanitizer_invariant :
    (∀ (simpleHash : String → String) (content : String),
      ∀ ch ∈ parseM3U simpleHash content,
        sanitizeStreamUrl ch.stream_url = some ch.stream_url) ∧
    (∀ (simpleHash : String → String) (recs : List CompactChannel),
      ∀ ch ∈ expandChannels simpleHash recs,
        sanitizeStreamUrl ch.stream_url = some ch.stream_url) ∧
    (∀ (simpleHash : String → String) (n g : String) (l : Option String),
      expandChannels simpleHash [⟨n, g, l, "javascript:x"⟩] = []) ∧
    (∀ simpleHash : String → String,
      parseM3U simpleHash m3uWithBadEntry =
        [⟨simpleHash "http://a/1", "One", "G1", none, "http://a/1", false⟩,
         ⟨simpleHash "https://b/2", "Two", "", none, "https://b/2", false⟩]) := by
  refine ⟨?_, ?_, ?_, ?_⟩
  · intro simpleHash content
    exact foldl_preserves
      (fun st => ∀ ch ∈ st.1, sanitizeStreamUrl ch.stream_url = some ch.stream_url)
      (parseM3UStep simpleHash)
      (fun s a hs => parseM3UStep_preserves simpleHash s a hs)
      (splitLinesJS content) ([], ⟨"", "", none⟩) (by intro ch hch; cases hch)
  · intro simpleHash recs
    induction recs with
    | nil => intro ch hch; cases hch
    | cons c rest ih =>
      intro ch hch
      simp only [expandChannels, List.flatMap_cons] at hch
      rcases List.mem_append.mp hch with hch | hch
      · revert hch
        cases heq : sanitizeStreamUrl c.s with
        | none => intro hch; cases hch
        | some v =>
          intro hch
          rcases List.mem_singleton.mp hch with rfl
          exact sanitizeStreamUrl_accepted heq
      · exact ih ch hch
  · intro simpleHash n g l
    have h : sanitizeStreamUrl "javascript:x" = none := by decide
    simp [expandChannels, h]
  · intro simpleHash
    rfl

/-- Witness for C9: a concrete channel produced by `parseM3U` on the
mixed-validity playlist satisfies the sanitizer invariant. -/
theorem channel_sanitizer_invariant_witness :
    sanitizeStreamUrl "http://a/1" = some "http://a/1" :=
  channel_sanitizer_invariant.1 (fun _ => "") m3uWithBadEntry
    ⟨"", "One", "G1", none, "http://a/1", false⟩ (by decide)

/-! ## Hex and UTF-8 helpers for the pointer record codec
(`toHex`, `hexToAscii` in chain.ts; `TextEncoder`,
`encodeURIComponent`/`decodeURIComponent` are JS runtime primitives). -/

def hexDigitLower (n : Nat) : Char :=
  if n < 10 then Char.ofNat (48 + n) else Char.ofNat (87 + n)

def hexDigitUpper (n : Nat) : Char :=
  if n < 10 then Char.ofNat (48 + n) else Char.ofNat (55 + n)

/-- `b.toString(16).padStart(2, "0")` for a byte value. -/
def toHexByte (b : Nat) : List Char := [hexDigitLower (b / 16), hexDigitLower (b % 16)]

def toHexChars (bytes : List Nat) : List Char := bytes.flatMap toHexByte

/-- `toHex` from chain.ts. -/
def toHex (bytes : List Nat) : String := ⟨toHexChars bytes⟩

/-- Value of a hex digit, either case (as in `parseInt(s, 16)` and URI
escape decoding). -/
def hexVal (c : Char) : Option Nat :=
  if 48 ≤ c.toNat ∧ c.toNat ≤ 57 then some (c.toNat - 48)
  else if 65 ≤ c.toNat ∧ c.toNat ≤ 70 then some (c.toNat - 55)
  else if 97 ≤ c.toNat ∧ c.toNat ≤ 102 then some (c.toNat - 87)
  else none

/-- UTF-8 encoding of one Unicode scalar value (`TextEncoder`). -/
def utf8EncodeChar (c : Char) : List Nat :=
  if c.toNat < 128 then [c.toNat]
  else if c.toNat < 2048 then [192 + c.toNat / 64, 128 + c.toNat % 64]
  else if c.toNat < 65536 then
    [224 + c.toNat / 4096, 128 + c.toNat / 64 % 64, 128 + c.toNat % 64]
  else
    [240 + c.toNat / 262144, 128 + c.toNat / 4096 % 64, 128 + c.toNat / 64 % 64,
      128 + c.toNat % 64]

/-- `new TextEncoder().encode(s)`. -/
def utf8Encode (s : String) : List Nat := s.data.flatMap utf8EncodeChar

/-- JS `parseInt(two-char-slice, 16)`: parses a maximal hex-digit prefix,
`none` models `NaN`. -/
def jsParseHexPair (h l : Char) : Option Nat :=
  match hexVal h with
  | none => none
  | some hv =>
    match hexVal l with
    | some lv => some (16 * hv + lv)
    | none => some hv

/-- `hexToAscii` from chain.ts: decode hex pairs to characters, stopping at
the first non-printable code; a `NaN` parse appends `\u0000` (JS
`String.fromCharCode(NaN)`) and continues. -/
def hexToAscii : List Char → List Char
  | h :: l :: rest =>
    (match jsParseHexPair h l with
     | none => Char.ofNat 0 :: hexToAscii rest
     | some code =>
       if code < 32 ∨ 126 < code then [] else Char.ofNat code :: hexToAscii rest)
  | [c] =>
    (match hexVal c with
     | none => [Char.ofNat 0]
     | some code => if code < 32 ∨ 126 < code then [] else [Char.ofNat code])
  | [] => []

/-! ## Percent-encoding (`encodeURIComponent` / `decodeURIComponent`).
`encodeURIComponent` leaves the unreserved set untouched and escapes each
UTF-8 byte of every other character as `%XX` (uppercase hex).
`decodeURIComponent` is modelled in two structural passes: tokenize `%XX`
escapes into bytes, then decode byte runs as UTF-8 (continuation bytes must
themselves come from escapes, as in JS; a malformed sequence is a thrown
`URIError`, modelled as `none`).  The model accepts a superset of byte
sequences (it does not reject overlong/surrogate encodings), which is
irrelevant here: it is only applied to `encodeURIComponent` output. -/

def isUnreservedURI (c : Char) : Bool :=
  isAsciiAlphaNum c || decide (c.toNat ∈ [45, 95, 46, 33, 126, 42, 39, 40, 41])

def encodeURIComponentChar (c : Char) : List Char :=
  if isUnreservedURI c then [c]
  else (utf8EncodeChar c).flatMap
    (fun b => [Char.ofNat 37, hexDigitUpper (b / 16), hexDigitUpper (b % 16)])

def encodeURIComponent (s : String) : String :=
  ⟨s.data.flatMap encodeURIComponentChar⟩

/-- Tokenize a percent-encoded string: plain characters stay `Sum.inl`,
each valid `%XX` escape becomes a `Sum.inr` byte; a `%` not followed by two
hex digits is malformed. -/
def pctTokens : List Char → Option (List (Char ⊕ Nat))
  | [] => some []
  | c :: rest =>
    if c.toNat = 37 then
      match rest with
      | h :: l :: rest2 =>
        (match hexVal h, hexVal l with
         | some a, some b => (pctTokens rest2).map (fun ts => Sum.inr (16 * a + b) :: ts)
         | _, _ => none)
      | _ => none
    else (pctTokens rest).map (fun ts => Sum.inl c :: ts)

def isUtf8Cont (b : Nat) : Bool := decide (128 ≤ b ∧ b < 192)

/-- Decode the token stream as a state machine: `none` state expects the
start of a character, `some (need, acc)` expects `need` further UTF-8
continuation bytes with partial code point `acc`.  Continuation bytes must
themselves be escape bytes appearing immediately after the leading byte,
exactly as in JS `decodeURIComponent`. -/
def decTok : Option (Nat × Nat) → List (Char ⊕ Nat) → Option (List Char)
  | none, [] => some []
  | none, Sum.inl c :: rest => (decTok none rest).map (fun cs => c :: cs)
  | none, Sum.inr b0 :: rest =>
    if b0 < 128 then (decTok none rest).map (fun cs => Char.ofNat b0 :: cs)
    else if b0 < 192 then none
    else if b0 < 224 then decTok (some (1, b0 - 192)) rest
    else if b0 < 240 then decTok (some (2, b0 - 224)) rest
    else if b0 < 248 then decTok (some (3, b0 - 240)) rest
    else none
  | some (1, acc), Sum.inr b :: rest =>
    if isUtf8Cont b then
      (decTok none rest).map (fun cs => Char.ofNat (acc * 64 + (b - 128)) :: cs)
    else none
  | some (n + 2, acc), Sum.inr b :: rest =>
    if isUtf8Cont b then decTok (some (n + 1, acc * 64 + (b - 128))) rest
    else none
  | some _, _ => none

def decodeTokens (ts : List (Char ⊕ Nat)) : Option (List Char) := decTok none ts

def decodeURIComponent (s : String) : Option String :=
  match pctTokens s.data with
  | none => none
  | some ts =>
    match decodeTokens ts with
    | none => none
    | some cs => some ⟨cs⟩

/-! ## Pointer record codec (`submitPlaylistToChain` step 4 and
`parseExtrinsicForPointer` in chain.ts). -/

/-- The prefix `parseExtrinsicForPointer` searches for. -/
def pointerSearchKey (address : String) : String := "IPTVCID:" ++ address ++ ":"

/-- The pointer remark text built by `submitPlaylistToChain`:
`IPTVCID:{address}:{encodeURIComponent(name)}:{cid}`. -/
def encodePointerRemark (address name cid : String) : String :=
  pointerSearchKey address ++ encodeURIComponent name ++ ":" ++ cid

structure CIDPointer where
  cid : String
  name : String
  blockNumber : Nat
deriving DecidableEq, Repr

/-- JS `String.prototype.indexOf` (first occurrence of `pat`). -/
def indexOfSub (pat : List Char) : List Char → Option Nat
  | [] => if pat.isEmpty then some 0 else none
  | c :: rest =>
    if pat.isPrefixOf (c :: rest) then some 0
    else (indexOfSub pat rest).map (· + 1)

/-- The `{name}:{cid}` decoding step of `parseExtrinsicForPointer`: split at
the last colon, percent-decode the name half, strip non-alphanumeric noise
from the CID half, and return `null` when either half is empty. -/
def parsePointerDecoded (decoded : List Char) (blockNum : Nat) :
    Except String (Option CIDPointer) :=
  match lastIndexOfChar ':' decoded with
  | none => .ok none
  | some lastColon =>
    match decodeURIComponent ⟨decoded.take lastColon⟩ with
    | none => .error "URIError: URI malformed"
    | some name =>
      if (⟨(decoded.drop (lastColon + 1)).filter isAsciiAlphaNum⟩ : String) = ""
          ∨ name = "" then .ok none
      else .ok (some ⟨⟨(decoded.drop (lastColon + 1)).filter isAsciiAlphaNum⟩, name, blockNum⟩)

/-- `parseExtrinsicForPointer` from chain.ts.  A thrown `URIError` from
`decodeURIComponent` (which the JS code does not catch) is modelled as
`Except.error`; `null` is `Except.ok none`. -/
def parseExtrinsicForPointer (hexExtrinsic address : String) (blockNum : Nat) :
    Except String (Option CIDPointer) :=
  match indexOfSub (toHexChars (utf8Encode (pointerSearchKey address))) hexExtrinsic.data with
  | none => .ok none
  | some idx =>
    parsePointerDecoded
      (hexToAscii (hexExtrinsic.data.drop
        (idx + (toHexChars (utf8Encode (pointerSearchKey address))).length)))
      blockNum

/-! ## Round-trip lemmas for the pointer record codec -/

theorem string_eta (s : String) : (⟨s.data⟩ : String) = s := rfl

theorem char_toNat_ofNat {n : Nat} (h : n.isValidChar) : (Char.ofNat n).toNat = n := by
  unfold Char.ofNat
  rw [dif_pos h]
  rfl

theorem char_ofNat_toNat (c : Char) : Char.ofNat c.toNat = c := by
  have h : c.toNat.isValidChar := c.valid
  unfold Char.ofNat
  rw [dif_pos h]
  apply Char.eq_of_val_eq
  apply UInt32.eq_of_toBitVec_eq
  apply BitVec.eq_of_toNat_eq
  rfl

theorem char_toNat_lt (c : Char) : c.toNat < 1114112 := by
  rcases c.valid with h | h
  · exact Nat.lt_trans h (by omega)
  · exact h.2

theorem hexVal_hexDigitLower {n : Nat} (h : n < 16) :
    hexVal (hexDigitLower n) = some n := by
  interval_cases n <;> rfl

theorem hexVal_hexDigitUpper {n : Nat} (h : n < 16) :
    hexVal (hexDigitUpper n) = some n := by
  interval_cases n <;> rfl

theorem hexToAscii_toHexChars {bs : List Nat} (h : ∀ b ∈ bs, 32 ≤ b ∧ b ≤ 126) :
    hexToAscii (toHexChars bs) = bs.map Char.ofNat := by
  induction bs with
  | nil => rfl
  | cons b bs ih =>
    have hb := h b (List.mem_cons_self b bs)
    have hdiv : b / 16 < 16 := by omega
    have hmod : b % 16 < 16 := by omega
    show hexToAscii (hexDigitLower (b / 16) :: hexDigitLower (b % 16) :: toHexChars bs) = _
    simp only [hexToAscii, jsParseHexPair, hexVal_hexDigitLower hdiv,
      hexVal_hexDigitLower hmod]
    have hdm : 16 * (b / 16) + b % 16 = b := by omega
    rw [hdm, if_neg (by omega)]
    rw [ih (fun x hx => h x (List.mem_cons_of_mem b hx)), List.map_cons]

theorem utf8EncodeChar_ascii {c : Char} (h : c.toNat < 128) :
    utf8EncodeChar c = [c.toNat] := by
  unfold utf8EncodeChar
  rw [if_pos h]

theorem utf8Encode_ascii {s : List Char} (h : ∀ c ∈ s, c.toNat < 128) :
    s.flatMap utf8EncodeChar = s.map Char.toNat := by
  induction s with
  | nil => rfl
  | cons c cs ih =>
    rw [List.flatMap_cons, utf8EncodeChar_ascii (h c (List.mem_cons_self c cs)),
      ih (fun x hx => h x (List.mem_cons_of_mem c hx)), List.map_cons,
      List.singleton_append]

/-- Hex-encoding then `hexToAscii`-decoding a printable-ASCII string is the
identity: this is the pipeline a pointer remark travels through. -/
theorem hexToAscii_utf8_printable (R : String)
    (h : ∀ c ∈ R.data, 32 ≤ c.toNat ∧ c.toNat ≤ 126) :
    hexToAscii (toHexChars (utf8Encode R)) = R.data := by
  rw [show utf8Encode R = R.data.flatMap utf8EncodeChar from rfl,
    utf8Encode_ascii (fun c hc => by have := h c hc; omega)]
  rw [hexToAscii_toHexChars (by
    intro b hb
    rcases List.mem_map.mp hb with ⟨c, hc, rfl⟩
    exact h c hc)]
  rw [List.map_map]
  have : (Char.ofNat ∘ Char.toNat) = id := by
    funext c
    exact char_ofNat_toNat c
  rw [this, List.map_id]

theorem utf8EncodeChar_lt_256 (c : Char) : ∀ b ∈ utf8EncodeChar c, b < 256 := by
  intro b hb
  have hc := char_toNat_lt c
  by_cases h1 : c.toNat < 128
  · unfold utf8EncodeChar at hb
    rw [if_pos h1] at hb
    rcases List.mem_singleton.mp hb with rfl
    omega
  · by_cases h2 : c.toNat < 2048
    · unfold utf8EncodeChar at hb
      rw [if_neg h1, if_pos h2] at hb
      rcases List.mem_cons.mp hb with rfl | hb
      · omega
      rcases List.mem_singleton.mp hb with rfl
      omega
    · by_cases h3 : c.toNat < 65536
      · unfold utf8EncodeChar at hb
        rw [if_neg h1, if_neg h2, if_pos h3] at hb
        rcases List.mem_cons.mp hb with rfl | hb
        · omega
        rcases List.mem_cons.mp hb with rfl | hb
        · omega
        rcases List.mem_singleton.mp hb with rfl
        omega
      · unfold utf8EncodeChar at hb
        rw [if_neg h1, if_neg h2, if_neg h3] at hb
        rcases List.mem_cons.mp hb with rfl | hb
        · omega
        rcases List.mem_cons.mp hb with rfl | hb
        · omega
        rcases List.mem_cons.mp hb with rfl | hb
        · omega
        rcases List.mem_singleton.mp hb with rfl
        omega

theorem hexDigitUpper_toNat {n : Nat} (h : n < 16) :
    33 ≤ (hexDigitUpper n).toNat ∧ (hexDigitUpper n).toNat ≤ 126 ∧
      (hexDigitUpper n).toNat ≠ 58 := by
  interval_cases n <;> refine ⟨by decide, by decide, by decide⟩

theorem isUnreservedURI_bounds {c : Char} (h : isUnreservedURI c = true) :
    33 ≤ c.toNat ∧ c.toNat ≤ 126 ∧ c.toNat ≠ 58 ∧ c.toNat ≠ 37 := by
  unfold isUnreservedURI isAsciiAlphaNum isAsciiAlpha isAsciiUpper isAsciiLower isAsciiDigit at h
  simp only [Bool.or_eq_true, decide_eq_true_eq, List.mem_cons,
    List.mem_singleton, List.not_mem_nil, or_false] at h
  rcases h with ((h | h) | h) | (h | h | h | h | h | h | h | h | h) <;> omega

/-- Every character `encodeURIComponent` emits is printable ASCII other
than the `:` delimiter. -/
theorem encodeURIComponentChar_props {c : Char} :
    ∀ d ∈ encodeURIComponentChar c, 33 ≤ d.toNat ∧ d.toNat ≤ 126 ∧ d.toNat ≠ 58 := by
  intro d hd
  unfold encodeURIComponentChar at hd
  split at hd
  · next h =>
    rcases List.mem_singleton.mp hd with rfl
    have hb := isUnreservedURI_bounds h
    exact ⟨hb.1, hb.2.1, hb.2.2.1⟩
  · rcases List.mem_flatMap.mp hd with ⟨b, hb, hdb⟩
    have hb256 : b < 256 := utf8EncodeChar_lt_256 c b hb
    rcases List.mem_cons.mp hdb with rfl | hdb
    · refine ⟨by decide, by decide, by decide⟩
    rcases List.mem_cons.mp hdb with rfl | hdb
    · exact hexDigitUpper_toNat (by omega)
    rcases List.mem_singleton.mp hdb with rfl
    exact hexDigitUpper_toNat (by omega)

/-- Token view of one character of `encodeURIComponent` output. -/
def uriTokenOf (c : Char) : List (Char ⊕ Nat) :=
  if isUnreservedURI c then [Sum.inl c] else (utf8EncodeChar c).map Sum.inr

theorem pctTokens_cons_plain (c : Char) (rest : List Char) (hc : c.toNat ≠ 37) :
    pctTokens (c :: rest) = (pctTokens rest).map (fun ts => Sum.inl c :: ts) := by
  rw [pctTokens.eq_def]
  dsimp only
  rw [if_neg hc]

theorem pctTokens_cons_pct {h l : Char} {a b : Nat} (rest : List Char)
    (hh : hexVal h = some a) (hl : hexVal l = some b) :
    pctTokens (Char.ofNat 37 :: h :: l :: rest)
      = (pctTokens rest).map (fun ts => Sum.inr (16 * a + b) :: ts) := by
  rw [pctTokens.eq_def]
  dsimp only
  have h37 : (Char.ofNat 37).toNat = 37 := by decide
  rw [h37]
  simp only [if_pos]
  rw [hh, hl]

theorem pctTokens_escBytes (bs : List Nat) (hbs : ∀ b ∈ bs, b < 256) (rest : List Char) :
    pctTokens (bs.flatMap
        (fun b => [Char.ofNat 37, hexDigitUpper (b / 16), hexDigitUpper (b % 16)]) ++ rest)
      = (pctTokens rest).map (fun ts => bs.map Sum.inr ++ ts) := by
  induction bs with
  | nil =>
    simp only [List.flatMap_nil, List.nil_append, List.map_nil]
    cases pctTokens rest <;> rfl
  | cons b bs ih =>
    have hb := hbs b (List.mem_cons_self b bs)
    show pctTokens (Char.ofNat 37 :: hexDigitUpper (b / 16) :: hexDigitUpper (b % 16) ::
        (bs.flatMap
          (fun x => [Char.ofNat 37, hexDigitUpper (x / 16), hexDigitUpper (x % 16)]) ++ rest))
      = (pctTokens rest).map (fun ts => (b :: bs).map Sum.inr ++ ts)
    rw [pctTokens_cons_pct _ (hexVal_hexDigitUpper (by omega : b / 16 < 16))
      (hexVal_hexDigitUpper (by omega : b % 16 < 16))]
    rw [ih (fun x hx => hbs x (List.mem_cons_of_mem b hx))]
    have hdm : 16 * (b / 16) + b % 16 = b := by omega
    rw [hdm, Option.map_map]
    rfl

theorem pctTokens_encodeChar (c : Char) (rest : List Char) :
    pctTokens (encodeURIComponentChar c ++ rest)
      = (pctTokens rest).map (fun ts => uriTokenOf c ++ ts) := by
  unfold encodeURIComponentChar uriTokenOf
  split
  · next h =>
    have hc : c.toNat ≠ 37 := (isUnreservedURI_bounds h).2.2.2
    rw [List.singleton_append, pctTokens_cons_plain c rest hc]
    rfl
  · rw [pctTokens_escBytes (utf8EncodeChar c) (utf8EncodeChar_lt_256 c) rest]

theorem pctTokens_encode (cs : List Char) :
    pctTokens (cs.flatMap encodeURIComponentChar) = some (cs.flatMap uriTokenOf) := by
  induction cs with
  | nil => rfl
  | cons c cs ih =>
    rw [List.flatMap_cons, pctTokens_encodeChar, ih, List.flatMap_cons]
    rfl

theorem decTok_start_cons (b0 : Nat) (rest : List (Char ⊕ Nat)) :
    decTok none (Sum.inr b0 :: rest) =
      if b0 < 128 then (decTok none rest).map (fun cs => Char.ofNat b0 :: cs)
      else if b0 < 192 then none
      else if b0 < 224 then decTok (some (1, b0 - 192)) rest
      else if b0 < 240 then decTok (some (2, b0 - 224)) rest
      else if b0 < 248 then decTok (some (3, b0 - 240)) rest
      else none := by
  rw [decTok.eq_def]

theorem decTok_cont_one (acc b : Nat) (rest : List (Char ⊕ Nat))
    (hb : isUtf8Cont b = true) :
    decTok (some (1, acc)) (Sum.inr b :: rest) =
      (decTok none rest).map (fun cs => Char.ofNat (acc * 64 + (b - 128)) :: cs) := by
  rw [decTok.eq_def]
  dsimp only
  rw [if_pos hb]

theorem decTok_cont_more (n acc b : Nat) (rest : List (Char ⊕ Nat))
    (hb : isUtf8Cont b = true) :
    decTok (some (n + 2, acc)) (Sum.inr b :: rest) =
      decTok (some (n + 1, acc * 64 + (b - 128))) rest := by
  rw [decTok.eq_def]
  dsimp only
  rw [if_pos hb]

theorem isUtf8Cont_of (b : Nat) (h1 : 128 ≤ b) (h2 : b < 192) : isUtf8Cont b = true := by
  simp only [isUtf8Cont, decide_eq_true_eq]
  omega

theorem decodeTokens_uriToken (c : Char) (ts : List (Char ⊕ Nat)) :
    decodeTokens (uriTokenOf c ++ ts) = (decodeTokens ts).map (fun cs => c :: cs) := by
  unfold uriTokenOf decodeTokens
  split
  · rfl
  · have hval := char_toNat_lt c
    by_cases h1 : c.toNat < 128
    · rw [utf8EncodeChar_ascii h1]
      show decTok none (Sum.inr c.toNat :: ts) = _
      rw [decTok_start_cons, if_pos h1, char_ofNat_toNat]
    · by_cases h2 : c.toNat < 2048
      · have e : utf8EncodeChar c = [192 + c.toNat / 64, 128 + c.toNat % 64] := by
          unfold utf8EncodeChar
          rw [if_neg h1, if_pos h2]
        rw [e]
        show decTok none
            (Sum.inr (192 + c.toNat / 64) :: Sum.inr (128 + c.toNat % 64) :: ts) = _
        rw [decTok_start_cons, if_neg (by omega), if_neg (by omega), if_pos (by omega),
          decTok_cont_one _ _ _ (isUtf8Cont_of _ (by omega) (by omega))]
        have harg : (192 + c.toNat / 64 - 192) * 64 + (128 + c.toNat % 64 - 128)
            = c.toNat := by omega
        rw [harg, char_ofNat_toNat]
      · by_cases h3 : c.toNat < 65536
        · have e : utf8EncodeChar c
              = [224 + c.toNat / 4096, 128 + c.toNat / 64 % 64, 128 + c.toNat % 64] := by
            unfold utf8EncodeChar
            rw [if_neg h1, if_neg h2, if_pos h3]
          rw [e]
          show decTok none (Sum.inr (224 + c.toNat / 4096) ::
              Sum.inr (128 + c.toNat / 64 % 64) :: Sum.inr (128 + c.toNat % 64) :: ts) = _
          rw [decTok_start_cons, if_neg (by omega), if_neg (by omega), if_neg (by omega),
            if_pos (by omega),
            decTok_cont_more _ _ _ _ (isUtf8Cont_of _ (by omega) (by omega)),
            decTok_cont_one _ _ _ (isUtf8Cont_of _ (by omega) (by omega))]
          have harg : ((224 + c.toNat / 4096 - 224) * 64 +
              (128 + c.toNat / 64 % 64 - 128)) * 64 + (128 + c.toNat % 64 - 128)
              = c.toNat := by omega
          rw [harg, char_ofNat_toNat]
        · have e : utf8EncodeChar c
              = [240 + c.toNat / 262144, 128 + c.toNat / 4096 % 64,
                  128 + c.toNat / 64 % 64, 128 + c.toNat % 64] := by
            unfold utf8EncodeChar
            rw [if_neg h1, if_neg h2, if_neg h3]
          rw [e]
          show decTok none (Sum.inr (240 + c.toNat / 262144) ::
              Sum.inr (128 + c.toNat / 4096 % 64) :: Sum.inr (128 + c.toNat / 64 % 64) ::
              Sum.inr (128 + c.toNat % 64) :: ts) = _
          rw [decTok_start_cons, if_neg (by omega), if_neg (by omega), if_neg (by omega),
            if_neg (by omega), if_pos (by omega),
            decTok_cont_more _ _ _ _ (isUtf8Cont_of _ (by omega) (by omega)),
            decTok_cont_more _ _ _ _ (isUtf8Cont_of _ (by omega) (by omega)),
            decTok_cont_one _ _ _ (isUtf8Cont_of _ (by omega) (by omega))]
          have harg : (((240 + c.toNat / 262144 - 240) * 64 +
              (128 + c.toNat / 4096 % 64 - 128)) * 64 +
              (128 + c.toNat / 64 % 64 - 128)) * 64 + (128 + c.toNat % 64 - 128)
              = c.toNat := by omega
          rw [harg, char_ofNat_toNat]

theorem decodeTokens_encode (cs : List Char) :
    decodeTokens (cs.flatMap uriTokenOf) = some cs := by
  induction cs with
  | nil => rfl
  | cons c cs ih =>
    rw [List.flatMap_cons, decodeTokens_uriToken, ih]
    rfl

/-- `decodeURIComponent ∘ encodeURIComponent` is the identity. -/
theorem decodeURIComponent_encode (s : String) :
    decodeURIComponent (encodeURIComponent s) = some s := by
  unfold decodeURIComponent encodeURIComponent
  show (match pctTokens (s.data.flatMap encodeURIComponentChar) with
    | none => none
    | some ts => match decodeTokens ts with
      | none => none
      | some cs => some (⟨cs⟩ : String)) = some s
  rw [pctTokens_encode]
  dsimp only
  rw [decodeTokens_encode]

theorem string_append_data (a b : String) : (a ++ b).data = a.data ++ b.data := rfl

theorem utf8Encode_append (a b : String) :
    utf8Encode (a ++ b) = utf8Encode a ++ utf8Encode b := by
  show (a ++ b).data.flatMap utf8EncodeChar = _
  rw [string_append_data, List.flatMap_append]
  rfl

theorem toHexChars_append (x y : List Nat) :
    toHexChars (x ++ y) = toHexChars x ++ toHexChars y := by
  unfold toHexChars
  rw [List.flatMap_append]

theorem lastIndexOfChar_cons (c x : Char) (xs : List Char) :
    lastIndexOfChar c (x :: xs) =
      match lastIndexOfChar c xs with
      | some i => some (i + 1)
      | none => if x = c then some 0 else none := rfl

theorem lastIndexOfChar_eq_none {c : Char} {ys : List Char} (h : ∀ y ∈ ys, y ≠ c) :
    lastIndexOfChar c ys = none := by
  induction ys with
  | nil => rfl
  | cons y ys ih =>
    rw [lastIndexOfChar_cons, ih (fun z hz => h z (List.mem_cons_of_mem y hz))]
    dsimp only
    rw [if_neg (h y (List.mem_cons_self y ys))]

theorem lastIndexOfChar_append {c : Char} (xs ys : List Char) (h : ∀ y ∈ ys, y ≠ c) :
    lastIndexOfChar c (xs ++ c :: ys) = some xs.length := by
  induction xs with
  | nil =>
    rw [List.nil_append, lastIndexOfChar_cons, lastIndexOfChar_eq_none h]
    dsimp only
    rw [if_pos rfl]
    rfl
  | cons x xs ih =>
    rw [List.cons_append, lastIndexOfChar_cons, ih]
    rfl

theorem indexOfSub_prefix (p r : List Char) : indexOfSub p (p ++ r) = some 0 := by
  cases p with
  | nil =>
    cases r with
    | nil => rfl
    | cons c rest => rfl
  | cons a p' =>
    have hp : (a :: p').isPrefixOf ((a :: p') ++ r) = true := by
      rw [List.isPrefixOf_iff_prefix]
      exact List.prefix_append _ _
    show indexOfSub (a :: p') ((a :: p') ++ r) = some 0
    rw [List.cons_append, indexOfSub.eq_def]
    dsimp only
    rw [← List.cons_append, if_pos hp]

theorem isAsciiAlphaNum_bounds {c : Char} (h : isAsciiAlphaNum c = true) :
    48 ≤ c.toNat ∧ c.toNat ≤ 122 ∧ c.toNat ≠ 58 := by
  unfold isAsciiAlphaNum isAsciiAlpha isAsciiUpper isAsciiLower isAsciiDigit at h
  simp only [Bool.or_eq_true, decide_eq_true_eq] at h
  rcases h with (h | h) | h <;> omega

theorem char_ne_of_toNat_ne {c d : Char} (h : c.toNat ≠ d.toNat) : c ≠ d := by
  intro hcd
  exact h (hcd ▸ rfl)

/-- C2 (amended): for every address, every nonempty playlist name
(including names containing the `:` delimiter) and every nonempty CID of
alphanumeric ASCII characters, decoding the pointer text built by
`submitPlaylistToChain` (via `parseExtrinsicForPointer` on the hex encoding
of its UTF-8 bytes, with the same address) recovers exactly the original
name and CID.  The nonemptiness conditions are required: the parser's
`if (!cid || !name) return null` guard rejects empty halves (see the
counterexample). -/
theorem pointer_record_roundtrip (address name cid : String) (blockNum : Nat)
    (hname : name ≠ "") (hcid : cid ≠ "")
    (hcidAl : ∀ c ∈ cid.data, isAsciiAlphaNum c = true) :
    parseExtrinsicForPointer (toHex (utf8Encode (encodePointerRemark address name cid)))
      address blockNum = .ok (some ⟨cid, name, blockNum⟩) := by
  have hsplit : (toHex (utf8Encode (encodePointerRemark address name cid))).data
      = toHexChars (utf8Encode (pointerSearchKey address))
        ++ toHexChars (utf8Encode (encodeURIComponent name ++ ":" ++ cid)) := by
    show toHexChars (utf8Encode (encodePointerRemark address name cid)) = _
    rw [show encodePointerRemark address name cid
        = pointerSearchKey address ++ (encodeURIComponent name ++ ":" ++ cid) by
      unfold encodePointerRemark
      rw [String.append_assoc (pointerSearchKey address) (encodeURIComponent name) ":",
        String.append_assoc (pointerSearchKey address)
          (encodeURIComponent name ++ ":") cid]]
    rw [utf8Encode_append, toHexChars_append]
  have hdataE : (encodeURIComponent name ++ ":" ++ cid).data
      = (encodeURIComponent name).data ++ ':' :: cid.data := by
    rw [string_append_data, string_append_data, List.append_assoc]
    rfl
  have hprintable : ∀ c ∈ (encodeURIComponent name ++ ":" ++ cid).data,
      32 ≤ c.toNat ∧ c.toNat ≤ 126 := by
    rw [hdataE]
    intro c hc
    rcases List.mem_append.mp hc with hc | hc
    · have hc' : c ∈ name.data.flatMap encodeURIComponentChar := hc
      rcases List.mem_flatMap.mp hc' with ⟨d, _, hcd⟩
      have := encodeURIComponentChar_props (c := d) c hcd
      omega
    · rcases List.mem_cons.mp hc with rfl | hc
      · refine ⟨by decide, by decide⟩
      · have := isAsciiAlphaNum_bounds (hcidAl c hc)
        omega
  have hcolon : ∀ y ∈ cid.data, y ≠ ':' := by
    intro y hy
    have := isAsciiAlphaNum_bounds (hcidAl y hy)
    exact char_ne_of_toNat_ne (by
      rw [show (':' : Char).toNat = 58 from rfl]
      omega)
  unfold parseExtrinsicForPointer
  rw [hsplit, indexOfSub_prefix]
  dsimp only
  rw [Nat.zero_add, List.drop_left, hexToAscii_utf8_printable _ hprintable, hdataE]
  unfold parsePointerDecoded
  rw [lastIndexOfChar_append _ _ hcolon]
  dsimp only
  rw [List.take_left, string_eta, decodeURIComponent_encode]
  dsimp only
  have hdrop : ((encodeURIComponent name).data ++ ':' :: cid.data).drop
      ((encodeURIComponent name).data.length + 1) = cid.data := by
    rw [List.append_cons,
      show (encodeURIComponent name).data.length + 1
        = ((encodeURIComponent name).data ++ [':']).length by
      rw [List.length_append, List.length_singleton]]
    exact List.drop_left _ _
  rw [hdrop, List.filter_eq_self.mpr hcidAl, string_eta,
    if_neg (fun h => h.elim hcid hname)]

/-- C2 counterexample: the claim quantifies over every playlist name and
every alphanumeric-ASCII CID string, but for the empty name (and likewise
the empty CID) the parser's `if (!cid || !name) return null` guard makes
decoding return `null` instead of recovering the original pair, so the
claim as stated is false. -/
theorem pointer_record_roundtrip_cex :
    ¬ parseExtrinsicForPointer
        (toHex (utf8Encode (encodePointerRemark "Addr1" "" "bafyCID123"))) "Addr1" 7
      = .ok (some ⟨"bafyCID123", "", 7⟩) := by
  have h : parseExtrinsicForPointer
      (toHex (utf8Encode (encodePointerRemark "Addr1" "" "bafyCID123"))) "Addr1" 7
      = .ok none := rfl
  rw [h]
  intro hcontra
  exact Option.noConfusion (Except.ok.inj hcontra)

/-- Witness for C2 at a concrete input with the `:` delimiter inside the
name. -/
theorem pointer_record_roundtrip_witness :
    parseExtrinsicForPointer
        (toHex (utf8Encode (encodePointerRemark "Addr1" "My:Playlist:v2" "bafy9"))) "Addr1" 5
      = .ok (some ⟨"bafy9", "My:Playlist:v2", 5⟩) :=
  pointer_record_roundtrip "Addr1" "My:Playlist:v2" "bafy9" 5
    (by decide) (by decide) (by decide)

/-! ## Compression envelope (`gzipCompress`, `gzipDecompress` in chain.ts).
The gzip transform itself is the browser `CompressionStream` /
`DecompressionStream`; the repository code drives the stream and
concatenates the chunks it yields, with `gzipDecompress` checking the
accumulated output length against a ceiling after each chunk and aborting
(cancelling the reader and throwing the size-limit error) as soon as it is
exceeded.  The stream is modelled by the list of chunks it yields. -/

def MAX_COMPRESSED_SIZE : Nat := 10 * 1024 * 1024

def MAX_DECOMPRESSED_SIZE : Nat := 50 * 1024 * 1024

def sizeLimitError (maxSize : Nat) : String :=
  "Decompressed data exceeds size limit of " ++ toString maxSize ++ " bytes"

/-- `gzipCompress`: the loop concatenating the chunks the compression
stream yields. -/
def gzipCompress (chunks : List (List Nat)) : List Nat := chunks.flatten

/-- The chunk loop of `gzipDecompress`, tracking the accumulated output
length. -/
def gzipDecompressGo (maxSize : Nat) : Nat → List (List Nat) → Except String (List (List Nat))
  | _, [] => .ok []
  | totalLen, c :: cs =>
    if maxSize < totalLen + c.length then .error (sizeLimitError maxSize)
    else
      match gzipDecompressGo maxSize (totalLen + c.length) cs with
      | .error e => .error e
      | .ok rest => .ok (c :: rest)

/-- `gzipDecompress` (the `maxSize` parameter defaults to
`MAX_DECOMPRESSED_SIZE` at the call site in `loadPlaylistFromChain`). -/
def gzipDecompress (chunks : List (List Nat)) (maxSize : Nat) : Except String (List Nat) :=
  (gzipDecompressGo maxSize 0 chunks).map List.flatten

theorem gzipDecompressGo_ok {maxSize : Nat} :
    ∀ (chunks : List (List Nat)) (totalLen : Nat),
      totalLen + (chunks.map List.length).sum ≤ maxSize →
      gzipDecompressGo maxSize totalLen chunks = .ok chunks := by
  intro chunks
  induction chunks with
  | nil => intro t _; rfl
  | cons c cs ih =>
    intro t h
    simp only [List.map_cons, List.sum_cons] at h
    show gzipDecompressGo maxSize t (c :: cs) = _
    rw [gzipDecompressGo.eq_def]
    dsimp only
    rw [if_neg (by omega), ih (t + c.length) (by omega)]

theorem gzipDecompressGo_error {maxSize : Nat} :
    ∀ (chunks : List (List Nat)) (totalLen : Nat),
      totalLen ≤ maxSize → maxSize < totalLen + (chunks.map List.length).sum →
      gzipDecompressGo maxSize totalLen chunks = .error (sizeLimitError maxSize) := by
  intro chunks
  induction chunks with
  | nil =>
    intro t h1 h2
    simp only [List.map_nil, List.sum_nil] at h2
    omega
  | cons c cs ih =>
    intro t h1 h2
    simp only [List.map_cons, List.sum_cons] at h2
    rw [gzipDecompressGo.eq_def]
    dsimp only
    by_cases hc : maxSize < t + c.length
    · rw [if_pos hc]
    · rw [if_neg hc, ih (t + c.length) (by omega) (by omega)]

theorem gzipDecompress_ok {chunks : List (List Nat)} {maxSize : Nat}
    (h : (chunks.map List.length).sum ≤ maxSize) :
    gzipDecompress chunks maxSize = .ok chunks.flatten := by
  unfold gzipDecompress
  rw [gzipDecompressGo_ok chunks 0 (by omega)]
  rfl

theorem gzipDecompress_error {chunks : List (List Nat)} {maxSize : Nat}
    (h : maxSize < (chunks.map List.length).sum) :
    gzipDecompress chunks maxSize = .error (sizeLimitError maxSize) := by
  unfold gzipDecompress
  rw [gzipDecompressGo_error chunks 0 (by omega) (by omega)]
  rfl

/-- C5: `gzipDecompress` raises the distinct size-limit error exactly when
the accumulated decompressed output exceeds `maxSize`, and otherwise
returns the complete decompressed bytes — it never silently truncates; the
default bound used by the load path is 50 MiB. -/
theorem gzipDecompress_size_limit :
    (∀ (chunks : List (List Nat)) (maxSize : Nat),
      maxSize < (chunks.map List.length).sum →
      gzipDecompress chunks maxSize = .error (sizeLimitError maxSize)) ∧
    (∀ (chunks : List (List Nat)) (maxSize : Nat),
      (chunks.map List.length).sum ≤ maxSize →
      gzipDecompress chunks maxSize = .ok chunks.flatten) ∧
    MAX_DECOMPRESSED_SIZE = 50 * 1024 * 1024 :=
  ⟨fun _ _ h => gzipDecompress_error h, fun _ _ h => gzipDecompress_ok h, rfl⟩

/-- Witness for C5: a payload expanding to 3 bytes against a 2-byte bound
raises the size-limit error; within a 3-byte bound the full bytes return. -/
theorem gzipDecompress_size_limit_witness :
    gzipDecompress [[0, 1], [2]] 2 = .error (sizeLimitError 2) ∧
    gzipDecompress [[0, 1], [2]] 3 = .ok [0, 1, 2] :=
  ⟨gzipDecompress_size_limit.1 [[0, 1], [2]] 2 (by decide),
   gzipDecompress_size_limit.2.1 [[0, 1], [2]] 3 (by decide)⟩

/-- C10: for every byte buffer whose length is at most the
decompressed-size ceiling, compression followed by bounded decompression
with the default bound is the identity — for any gzip codec (the browser
primitive, passed in as the chunk streams) whose chunked decode inverts its
chunked encode. -/
theorem compress_decompress_roundtrip
    (gzipStream gunzipStream : List Nat → List (List Nat))
    (hcodec : ∀ bs, (gunzipStream (gzipStream bs).flatten).flatten = bs)
    (b : List Nat) (hb : b.length ≤ MAX_DECOMPRESSED_SIZE) :
    gzipDecompress (gunzipStream (gzipCompress (gzipStream b))) MAX_DECOMPRESSED_SIZE
      = .ok b := by
  unfold gzipCompress
  have hsum : ((gunzipStream (gzipStream b).flatten).map List.length).sum
      ≤ MAX_DECOMPRESSED_SIZE := by
    rw [← List.length_flatten, hcodec]
    exact hb
  rw [gzipDecompress_ok hsum, hcodec]

/-- Witness for C10 with the identity single-chunk codec. -/
theorem compress_decompress_roundtrip_witness :
    gzipDecompress ((fun bs => [bs]) (gzipCompress ((fun bs => [bs]) [7, 8, 9])))
        MAX_DECOMPRESSED_SIZE = .ok [7, 8, 9] :=
  compress_decompress_roundtrip (fun bs => [bs]) (fun bs => [bs])
    (fun bs => by simp) [7, 8, 9] (by decide)

/-! ## Signer resolution (`getAliceSigner` and the resolution expression
`signer ?? (hosted && publicKey ? getHostSigner(publicKey) : await
getAliceSigner())` in `submitPlaylistToChain`, chain.ts). -/

inductive ResolvedSigner where
  | explicitSigner (s : Nat)
  | hostSigner (publicKey : List Nat)
  | aliceDevSigner
deriving DecidableEq, Repr

/-- Result of signer resolution, together with whether the dev-key
derivation path (the lazily imported `@polkadot-labs/hdkd` modules deriving
`//Alice`) was executed. -/
structure SignerResolution where
  result : Except String ResolvedSigner
  devKeyDerivationExecuted : Bool
deriving Repr

/-- `getAliceSigner`: throws unless the dev-key flag is set; the dynamic
imports and the key derivation run only in the enabled branch, after the
flag check. -/
def getAliceSigner (useDevKey : Bool) : SignerResolution :=
  if useDevKey then ⟨.ok .aliceDevSigner, true⟩
  else ⟨.error "Dev key signing is disabled. Provide an external signer.", false⟩

/-- The signer-resolution expression of `submitPlaylistToChain`. -/
def resolveSigner (signer : Option Nat) (hosted : Bool) (publicKey : Option (List Nat))
    (useDevKey : Bool) : SignerResolution :=
  match signer with
  | some s => ⟨.ok (.explicitSigner s), false⟩
  | none =>
    match hosted, publicKey with
    | true, some pk => ⟨.ok (.hostSigner pk), false⟩
    | _, _ => getAliceSigner useDevKey

/-- C6: signer resolution selects exactly one signer with precedence
explicit signer > host signer (when hosted with a host public key) > Alice
dev signer (only when the dev-key flag is enabled); when no candidate is
available it fails hard with the distinct disabled-dev-key error rather
than falling back silently; and when the dev-key flag is false the
key-derivation path is never executed, for any combination of the other
inputs. -/
theorem signer_resolution_spec :
    (∀ (s : Nat) (hosted : Bool) (publicKey : Option (List Nat)) (useDevKey : Bool),
      resolveSigner (some s) hosted publicKey useDevKey
        = ⟨.ok (.explicitSigner s), false⟩) ∧
    (∀ (pk : List Nat) (useDevKey : Bool),
      resolveSigner none true (some pk) useDevKey = ⟨.ok (.hostSigner pk), false⟩) ∧
    (∀ (hosted : Bool) (publicKey : Option (List Nat)),
      ¬(hosted = true ∧ publicKey.isSome = true) →
      resolveSigner none hosted publicKey true = ⟨.ok .aliceDevSigner, true⟩) ∧
    (∀ (hosted : Bool) (publicKey : Option (List Nat)),
      ¬(hosted = true ∧ publicKey.isSome = true) →
      resolveSigner none hosted publicKey false
        = ⟨.error "Dev key signing is disabled. Provide an external signer.", false⟩) ∧
    (∀ (signer : Option Nat) (hosted : Bool) (publicKey : Option (List Nat)),
      (resolveSigner signer hosted publicKey false).devKeyDerivationExecuted = false) := by
  refine ⟨fun s hosted publicKey useDevKey => rfl, fun pk useDevKey => rfl, ?_, ?_, ?_⟩
  · intro hosted publicKey h
    cases hosted <;> cases publicKey
    · rfl
    · rfl
    · rfl
    · exact absurd ⟨rfl, rfl⟩ h
  · intro hosted publicKey h
    cases hosted <;> cases publicKey
    · rfl
    · rfl
    · rfl
    · exact absurd ⟨rfl, rfl⟩ h
  · intro signer hosted publicKey
    cases signer
    · cases hosted <;> cases publicKey <;> rfl
    · rfl

/-- Witness for C6: no explicit signer, not hosted, dev flag off — hard
error, derivation not executed. -/
theorem signer_resolution_spec_witness :
    resolveSigner none false none false
      = ⟨.error "Dev key signing is disabled. Provide an external signer.", false⟩ :=
  signer_resolution_spec.2.2.2.1 false none (by simp)

/-! ## Chain scan (`scanForCIDPointer`, chain.ts).  The JSON-RPC transport
is modelled by an environment: `connectOk` is whether the connection /
initial `chain_getHeader` call succeeds, `blocks n` is the extrinsics list
of block `n` (the result of `chain_getBlockHash` + `chain_getBlock`), and
`abortedAt b` is the state of the caller's AbortSignal when the batch
starting at block `b` begins.  The loop
`for (batchStart = head; batchStart > startBlock; batchStart -= BATCH_SIZE)`
is embedded as a fold over its iteration values `batchStarts`. -/

inductive ScanError where
  | connectionFailed
  | aborted
  | threw (msg : String)
deriving DecidableEq, Repr

structure ScanEnv where
  connectOk : Bool
  head : Nat
  blocks : Nat → List String
  abortedAt : Nat → Bool

def SCAN_BLOCK_LIMIT : Nat := 500

def BATCH_SIZE : Nat := 10

/-- Short-circuiting search: the first `some` wins, errors propagate. -/
def exceptFirstSome {α β ε : Type} (f : α → Except ε (Option β)) :
    List α → Except ε (Option β)
  | [] => .ok none
  | a :: as =>
    match f a with
    | .error e => .error e
    | .ok (some b) => .ok (some b)
    | .ok none => exceptFirstSome f as

theorem exceptFirstSome_cons {α β ε : Type} (f : α → Except ε (Option β)) (a : α)
    (as : List α) :
    exceptFirstSome f (a :: as) =
      match f a with
      | .error e => .error e
      | .ok (some b) => .ok (some b)
      | .ok none => exceptFirstSome f as := rfl

theorem exceptFirstSome_append {α β ε : Type} (f : α → Except ε (Option β))
    (as bs : List α) :
    exceptFirstSome f (as ++ bs) =
      match exceptFirstSome f as with
      | .error e => .error e
      | .ok (some b) => .ok (some b)
      | .ok none => exceptFirstSome f bs := by
  induction as with
  | nil => rfl
  | cons a as ih =>
    rw [List.cons_append, exceptFirstSome_cons, exceptFirstSome_cons]
    rcases hfa : f a with e | ob
    · rfl
    · cases ob with
      | none => exact ih
      | some b => rfl

theorem exceptFirstSome_all_none {α β ε : Type} {f : α → Except ε (Option β)}
    {l : List α} (h : ∀ a ∈ l, f a = .ok none) :
    exceptFirstSome f l = .ok none := by
  induction l with
  | nil => rfl
  | cons a as ih =>
    rw [exceptFirstSome_cons, h a (List.mem_cons_self a as)]
    exact ih (fun x hx => h x (List.mem_cons_of_mem a hx))

/-- The strictly descending block range `(lo, hi]` as scanned within a
batch (`for (let i = batchStart; i > batchEnd; i--)`). -/
def descRange (hi lo : Nat) : List Nat := (List.range' (lo + 1) (hi - lo)).reverse

theorem descRange_empty {hi lo : Nat} (h : hi ≤ lo) : descRange hi lo = [] := by
  unfold descRange
  rw [show hi - lo = 0 by omega]
  rfl

theorem descRange_cons {hi lo : Nat} (h : lo < hi) :
    descRange hi lo = hi :: descRange (hi - 1) lo := by
  unfold descRange
  rw [show hi - lo = (hi - 1 - lo) + 1 by omega, List.range'_concat,
    List.reverse_append, show lo + 1 + 1 * (hi - 1 - lo) = hi by omega]
  rfl

theorem descRange_append {hi mid lo : Nat} (h1 : lo ≤ mid) (h2 : mid ≤ hi) :
    descRange hi lo = descRange hi mid ++ descRange mid lo := by
  unfold descRange
  rw [← List.reverse_append]
  congr 1
  have h := List.range'_append (lo + 1) (mid - lo) (hi - mid) 1
  rw [show lo + 1 + 1 * (mid - lo) = mid + 1 by omega] at h
  rw [show hi - lo = (hi - mid) + (mid - lo) by omega]
  exact h.symm

/-- The iteration values of the batch loop. -/
def batchStarts (headNumber startBlock : Nat) : List Nat :=
  (List.range ((headNumber - startBlock + BATCH_SIZE - 1) / BATCH_SIZE)).map
    (fun i => headNumber - BATCH_SIZE * i)

theorem batchStarts_nil {headNumber startBlock : Nat} (h : headNumber ≤ startBlock) :
    batchStarts headNumber startBlock = [] := by
  unfold batchStarts BATCH_SIZE
  rw [show (headNumber - startBlock + 10 - 1) / 10 = 0 by omega]
  rfl

theorem batchStarts_cons {headNumber startBlock : Nat} (h : startBlock < headNumber) :
    batchStarts headNumber startBlock
      = headNumber :: batchStarts (headNumber - BATCH_SIZE) startBlock := by
  unfold batchStarts BATCH_SIZE
  rw [show (headNumber - startBlock + 10 - 1) / 10
      = (headNumber - 10 - startBlock + 10 - 1) / 10 + 1 by omega,
    List.range_succ_eq_map, List.map_cons, List.map_map]
  have hfun : ((fun i => headNumber - 10 * i) ∘ (fun i => i + 1))
      = (fun i => headNumber - 10 - 10 * i) := by
    funext i
    show headNumber - 10 * (i + 1) = headNumber - 10 - 10 * i
    omega
  rw [hfun]
  simp only [Nat.mul_zero, Nat.sub_zero]

/-- Scan the extrinsics of one block for a pointer record, most-recent
extrinsic order as returned by the node. -/
def firstPointerInBlock (address : String) (blockNum : Nat) (exts : List String) :
    Except ScanError (Option CIDPointer) :=
  exceptFirstSome
    (fun ext => (parseExtrinsicForPointer ext address blockNum).mapError ScanError.threw)
    exts

/-- The batch loop of `scanForCIDPointer`: the abort signal is checked at
each batch boundary, then the batch's block hashes and bodies are fetched
and each block's extrinsics scanned, most-recent-block-first; the first
match is returned immediately. -/
def runBatches (env : ScanEnv) (address : String) (startBlock : Nat) :
    List Nat → Except ScanError (Option CIDPointer)
  | [] => .ok none
  | b :: bs =>
    if env.abortedAt b then .error .aborted
    else
      match exceptFirstSome (fun n => firstPointerInBlock address n (env.blocks n))
          (descRange b (max (b - BATCH_SIZE) startBlock)) with
      | .error e => .error e
      | .ok (some p) => .ok (some p)
      | .ok none => runBatches env address startBlock bs

theorem runBatches_cons (env : ScanEnv) (address : String) (startBlock b : Nat)
    (bs : List Nat) :
    runBatches env address startBlock (b :: bs) =
      if env.abortedAt b then .error .aborted
      else
        match exceptFirstSome (fun n => firstPointerInBlock address n (env.blocks n))
            (descRange b (max (b - BATCH_SIZE) startBlock)) with
        | .error e => .error e
        | .ok (some p) => .ok (some p)
        | .ok none => runBatches env address startBlock bs := rfl

def scanFloor (env : ScanEnv) : Nat := max (env.head - SCAN_BLOCK_LIMIT) 0

/-- `scanForCIDPointer`: connect and read the chain head, then scan
batches backward from the head to the scan floor. -/
def scanForCIDPointer (env : ScanEnv) (address : String) :
    Except ScanError (Option CIDPointer) :=
  if env.connectOk then
    runBatches env address (scanFloor env) (batchStarts env.head (scanFloor env))
  else .error .connectionFailed

/-- The batch loop visits exactly the blocks of the descending range
`(startBlock, head]`, in order, with first-match-wins semantics. -/
theorem runBatches_eq (env : ScanEnv) (address : String) (startBlock : Nat)
    (hab : ∀ b, env.abortedAt b = false) (headNumber : Nat) :
    runBatches env address startBlock (batchStarts headNumber startBlock)
      = exceptFirstSome (fun n => firstPointerInBlock address n (env.blocks n))
          (descRange headNumber startBlock) := by
  induction headNumber using Nat.strong_induction_on with
  | _ headNumber ih =>
    have hB : BATCH_SIZE = 10 := rfl
    by_cases h : startBlock < headNumber
    · rw [batchStarts_cons h, runBatches_cons, hab headNumber,
        if_neg Bool.false_ne_true]
      have hm1 : startBlock ≤ max (headNumber - BATCH_SIZE) startBlock :=
        Nat.le_max_right _ _
      have hm2 : max (headNumber - BATCH_SIZE) startBlock ≤ headNumber := by omega
      rw [descRange_append hm1 hm2, exceptFirstSome_append]
      have hrec : runBatches env address startBlock
          (batchStarts (headNumber - BATCH_SIZE) startBlock)
          = exceptFirstSome (fun n => firstPointerInBlock address n (env.blocks n))
              (descRange (max (headNumber - BATCH_SIZE) startBlock) startBlock) := by
        by_cases h2 : startBlock < headNumber - BATCH_SIZE
        · rw [show max (headNumber - BATCH_SIZE) startBlock = headNumber - BATCH_SIZE
            by omega]
          exact ih (headNumber - BATCH_SIZE) (by omega)
        · rw [show max (headNumber - BATCH_SIZE) startBlock = startBlock by omega,
            descRange_empty (Nat.le_refl _), batchStarts_nil (by omega)]
          rfl
      rw [hrec]
      rcases hE : exceptFirstSome (fun n => firstPointerInBlock address n (env.blocks n))
          (descRange headNumber (max (headNumber - BATCH_SIZE) startBlock)) with e | ob
      · rfl
      · cases ob <;> rfl
    · rw [batchStarts_nil (by omega), descRange_empty (by omega)]
      rfl

theorem scanForCIDPointer_eq (env : ScanEnv) (address : String)
    (hconn : env.connectOk = true) (hab : ∀ b, env.abortedAt b = false) :
    scanForCIDPointer env address
      = exceptFirstSome (fun n => firstPointerInBlock address n (env.blocks n))
          (descRange env.head (scanFloor env)) := by
  unfold scanForCIDPointer
  rw [hconn, if_pos rfl]
  exact runBatches_eq env address (scanFloor env) hab env.head

/-- C7: when two blocks inside the scanned range hold pointer records for
the address at different heights and no block above the higher one does,
the scan returns the record from the higher block: blocks are examined in
strict descending block-number order (across batches and within each
batch), and scanning stops at the first match. -/
theorem scan_most_recent_wins (env : ScanEnv) (address : String)
    (n1 n2 : Nat) (p1 p2 : CIDPointer)
    (hconn : env.connectOk = true) (hab : ∀ b, env.abortedAt b = false)
    (hlt : n2 < n1) (hle : n1 ≤ env.head) (hgt : scanFloor env < n2)
    (hm1 : firstPointerInBlock address n1 (env.blocks n1) = .ok (some p1))
    (hm2 : firstPointerInBlock address n2 (env.blocks n2) = .ok (some p2))
    (habove : ∀ m ∈ descRange env.head n1,
      firstPointerInBlock address m (env.blocks m) = .ok none) :
    scanForCIDPointer env address = .ok (some p1) := by
  rw [scanForCIDPointer_eq env address hconn hab]
  have h1 : scanFloor env < n1 := Nat.lt_trans hgt hlt
  rw [descRange_append (show scanFloor env ≤ n1 by omega) hle,
    exceptFirstSome_append, exceptFirstSome_all_none habove]
  dsimp only
  rw [descRange_cons h1, exceptFirstSome_cons, hm1]

def scanDemoEnv : ScanEnv :=
  ⟨true, 10,
    fun n =>
      if n = 7 then [toHex (utf8Encode (encodePointerRemark "A" "n1" "cidA"))]
      else if n = 3 then [toHex (utf8Encode (encodePointerRemark "A" "n2" "cidB"))]
      else [],
    fun _ => false⟩

/-- Witness for C7: records at blocks 7 and 3 with head 10 — the scan
returns the block-7 record. -/
theorem scan_most_recent_wins_witness :
    scanForCIDPointer scanDemoEnv "A" = .ok (some ⟨"cidA", "n1", 7⟩) := by
  refine scan_most_recent_wins scanDemoEnv "A" 7 3 ⟨"cidA", "n1", 7⟩ ⟨"cidB", "n2", 3⟩
    rfl (fun _ => rfl) (by decide) (by decide) (by decide) rfl rfl ?_
  intro m hm
  rw [show descRange scanDemoEnv.head 7 = [10, 9, 8] by decide] at hm
  rcases List.mem_cons.mp hm with rfl | hm
  · rfl
  rcases List.mem_cons.mp hm with rfl | hm
  · rfl
  rcases List.mem_singleton.mp hm with rfl
  rfl

/-- The retry wrapper around the scan in `loadPlaylistFromChain`
(`try { … } catch { resetBulletinApi(); … }`): any throw from the first
scan attempt resets the cached chain-API singleton and runs the entire
scan once more.  The Boolean records whether the reset-and-retry
happened. -/
def scanWithRetry (env1 env2 : ScanEnv) (address : String) :
    Bool × Except ScanError (Option CIDPointer) :=
  match scanForCIDPointer env1 address with
  | .ok p => (false, .ok p)
  | .error _ => (true, scanForCIDPointer env2 address)

def abortedScanEnv : ScanEnv := ⟨true, 10, fun _ => [], fun _ => true⟩

def quietScanEnv : ScanEnv := ⟨true, 10, fun _ => [], fun _ => false⟩

/-- C8 counterexample: the `catch` wraps the whole scan, so a cancellation
(`AbortError`) raised after the connection opened successfully
(`connectOk = true`) is also caught: the singleton is reset and the scan
retried instead of the cancellation being surfaced, refuting the claim
that only connection-opening errors are retried. -/
theorem scan_retry_cex :
    scanForCIDPointer abortedScanEnv "A" = .error .aborted ∧
    scanWithRetry abortedScanEnv quietScanEnv "A" = (true, .ok none) := ⟨rfl, rfl⟩

/-- C8 (amended): the wrapper resets the singleton and retries the entire
scan exactly once whenever the first attempt throws for any reason
(connection failure, post-connection errors, cancellation), surfacing the
second attempt's outcome without further retries; a successful first
attempt is never retried; and a scan requests each block of its range only
once — there is no retry at the individual RPC-call layer. -/
theorem scan_retry_once (env1 env2 : ScanEnv) (address : String) :
    (∀ p, scanForCIDPointer env1 address = .ok p →
      scanWithRetry env1 env2 address = (false, .ok p)) ∧
    (∀ e, scanForCIDPointer env1 address = .error e →
      scanWithRetry env1 env2 address = (true, scanForCIDPointer env2 address)) ∧
    (descRange env1.head (scanFloor env1)).Nodup := by
  refine ⟨?_, ?_, ?_⟩
  · intro p h
    unfold scanWithRetry
    rw [h]
  · intro e h
    unfold scanWithRetry
    rw [h]
  · unfold descRange
    exact List.nodup_reverse.mpr (List.nodup_range' _ _)

/-- Witness for C8: a cancelled first attempt leads to exactly one retried
scan whose outcome is surfaced. -/
theorem scan_retry_once_witness :
    scanWithRetry abortedScanEnv quietScanEnv "B"
      = (true, scanForCIDPointer quietScanEnv "B") :=
  (scan_retry_once abortedScanEnv quietScanEnv "B").2.1 .aborted rfl

/-! ## Load pipeline (`loadPlaylistFromChain`, chain.ts).  The network
environment supplies the two scan attempts' worlds, the external
`CID.parse` validity check, the gateway fetch result (`none` models a
thrown network error), the external CID recomputation
(`computeCID(..).toString()`, blake2b + multiformats), the decompression
stream's chunk output (`none` models a gzip format error), the text
decoder, and the channel id hash. -/

structure FetchResponse where
  ok : Bool
  contentLength : Option Nat
  body : List Nat
deriving DecidableEq, Repr

inductive LoadError where
  | invalidAddress
  | scanFailed (e : ScanError)
  | fetchThrew
deriving DecidableEq, Repr

structure Playlist where
  name : String
  channels : List Channel
  last_checked : Option String
  source : String
deriving DecidableEq, Repr

inductive ChainPlaylistResponse where
  | notFound
  | found (playlist : Playlist) (blockNumber : Nat) (cid : String)
deriving DecidableEq, Repr

structure LoadEnv where
  scanEnv1 : ScanEnv
  scanEnv2 : ScanEnv
  cidParses : String → Bool
  fetchResult : String → Option FetchResponse
  computeCIDString : List Nat → String
  gunzipChunks : List Nat → Option (List (List Nat))
  textDecode : List Nat → String
  simpleHash : String → String

/-- `loadPlaylistFromChain`: validate the address, scan (with one
reset-and-retry), validate the discovered CID, fetch from the gateway,
enforce the compressed-size limits, verify the recomputed CID against the
pointer CID, decompress with the 50 MiB bound, decode and parse; every
deficiency after a successful scan collapses into `{found: false}`. -/
def loadPlaylistFromChain (env : LoadEnv) (address : String) :
    Except LoadError ChainPlaylistResponse :=
  if address = "" ∨ address.length < 46 ∨ 48 < address.length then .error .invalidAddress
  else
    match (scanWithRetry env.scanEnv1 env.scanEnv2 address).2 with
    | .error e => .error (.scanFailed e)
    | .ok none => .ok .notFound
    | .ok (some pointer) =>
      if env.cidParses pointer.cid = false then .ok .notFound
      else
        match env.fetchResult pointer.cid with
        | none => .error .fetchThrew
        | some response =>
          if response.ok = false then .ok .notFound
          else if (match response.contentLength with
              | some n => decide (MAX_COMPRESSED_SIZE < n)
              | none => false) then .ok .notFound
          else if MAX_COMPRESSED_SIZE < response.body.length then .ok .notFound
          else if env.computeCIDString response.body ≠ pointer.cid then .ok .notFound
          else
            match env.gunzipChunks response.body with
            | none => .ok .notFound
            | some chunks =>
              match gzipDecompress chunks MAX_DECOMPRESSED_SIZE with
              | .error _ => .ok .notFound
              | .ok decompressed =>
                if parseM3U env.simpleHash (env.textDecode decompressed) = [] then
                  .ok .notFound
                else
                  .ok (.found
                    ⟨pointer.name, parseM3U env.simpleHash (env.textDecode decompressed),
                      none, "chain"⟩
                    pointer.blockNumber pointer.cid)

/-- C1: the integrity gate.  Whenever the CID recomputed over the bytes
fetched from the gateway differs from the CID string discovered in the
pointer record, `loadPlaylistFromChain` returns `{found: false}`; and a
`{found: true}` result is only ever produced when the recomputed CID of
the fetched buffer equals the pointer CID — the gate cannot be skipped. -/
theorem load_integrity_gate :
    (∀ (env : LoadEnv) (address : String) (pointer : CIDPointer)
        (response : FetchResponse),
      ¬(address = "" ∨ address.length < 46 ∨ 48 < address.length) →
      (scanWithRetry env.scanEnv1 env.scanEnv2 address).2 = .ok (some pointer) →
      env.fetchResult pointer.cid = some response →
      env.computeCIDString response.body ≠ pointer.cid →
      loadPlaylistFromChain env address = .ok .notFound) ∧
    (∀ (env : LoadEnv) (address : String) (pl : Playlist) (bn : Nat) (c : String),
      loadPlaylistFromChain env address = .ok (.found pl bn c) →
      ∃ pointer response,
        (scanWithRetry env.scanEnv1 env.scanEnv2 address).2 = .ok (some pointer) ∧
        env.fetchResult pointer.cid = some response ∧
        env.computeCIDString response.body = pointer.cid ∧ c = pointer.cid) := by
  constructor
  · intro env address pointer response haddr hscan hfetch hmis
    unfold loadPlaylistFromChain
    rw [if_neg haddr, hscan]
    dsimp only
    rw [hfetch]
    dsimp only
    rw [if_pos hmis]
    repeat' split
    all_goals rfl
  · intro env address pl bn c h
    unfold loadPlaylistFromChain at h
    split at h
    · exact Except.noConfusion h
    · split at h
      · exact Except.noConfusion h
      · exact ChainPlaylistResponse.noConfusion (Except.ok.inj h)
      · next pointer hscan =>
        split at h
        · exact ChainPlaylistResponse.noConfusion (Except.ok.inj h)
        · split at h
          · exact Except.noConfusion h
          · next response hfetch =>
            split at h
            · exact ChainPlaylistResponse.noConfusion (Except.ok.inj h)
            · split at h
              · exact ChainPlaylistResponse.noConfusion (Except.ok.inj h)
              · split at h
                · exact ChainPlaylistResponse.noConfusion (Except.ok.inj h)
                · split at h
                  · exact ChainPlaylistResponse.noConfusion (Except.ok.inj h)
                  · next hmis =>
                    split at h
                    · exact ChainPlaylistResponse.noConfusion (Except.ok.inj h)
                    · split at h
                      · exact ChainPlaylistResponse.noConfusion (Except.ok.inj h)
                      · split at h
                        · exact ChainPlaylistResponse.noConfusion (Except.ok.inj h)
                        · refine ⟨pointer, response, hscan, hfetch,
                            not_not.mp hmis, ?_⟩
                          have h' := Except.ok.inj h
                          simp only [ChainPlaylistResponse.found.injEq] at h'
                          exact h'.2.2.symm

def demoAddress : String := ⟨List.replicate 46 'A'⟩

def demoLoadEnv : LoadEnv :=
  ⟨⟨true, 1,
      fun n => if n = 1
        then [toHex (utf8Encode (encodePointerRemark demoAddress "nm" "cid9"))]
        else [],
      fun _ => false⟩,
    quietScanEnv,
    fun _ => true,
    fun c => if c = "cid9" then some ⟨true, none, [1, 2, 3]⟩ else none,
    fun _ => "mismatch",
    fun _ => none,
    fun _ => "",
    fun s => s⟩

/-- Witness for C1: the pointer names `cid9`, the gateway serves bytes
whose recomputed CID is a different string — the load reports not-found. -/
theorem load_integrity_gate_witness :
    loadPlaylistFromChain demoLoadEnv demoAddress = .ok .notFound :=
  load_integrity_gate.1 demoLoadEnv demoAddress ⟨"cid9", "nm", 1⟩ ⟨true, none, [1, 2, 3]⟩
    (by decide) rfl rfl (by decide)

end IPTV
